import Mathlib

/-!
Verification development for the git-gpt automation scripts.

The repository contains three near-duplicate variants of the same control
loop: `src/index.js`, `src/unnamed/part_000` and `src/unnamed/part_001`.
This file gives a shallow embedding of the functions the claims are about:
the command-execution guard (`executeCommands`), the patch application step
(`applyPatch`), the main iteration loop (`main`), the finalizer
(commit step, `createPullRequest`) and the completion-flag computation of the
multi-message variant (`iterate` in part_000).

JavaScript runtime behaviour relevant to the embedding:
- assigning to a `const` binding throws a `TypeError` in every mode;
- reading an undeclared identifier throws a `ReferenceError`;
- reading a `const` binding inside its own initializer (temporal dead zone)
  throws a `ReferenceError`;
- invoking a function whose parameter is the destructuring pattern
  `\x7b topLevelGoal \x7d` with no argument throws a `TypeError`
  (destructuring `undefined`).

External effects (`execSync`, `fs.readFileSync`, the chat API, the GitHub
API, `JSON.parse`) are modelled as explicit oracle parameters; file writes
and subprocess invocations are recorded in explicit event traces so that
claims about which actions run can be stated.
-/

set_option autoImplicit false

namespace GitGpt

/-- Errors a JavaScript execution can surface in the modelled code paths. -/
inductive JsError where
  | typeError (msg : String)
  | referenceError (msg : String)
  | execError (msg : String)
  deriving DecidableEq

/-- Result of one `execSync(command)` call: either captured stdout, or a
thrown error object carrying an optional `stderr` string (present for
non-zero exits under `encoding: utf-8`) and its `toString()` form. -/
inductive ExecResult where
  | success (stdout : String)
  | failure (stderr : Option String) (errString : String)

/-- True when the `execSync` call threw. -/
def isFailure : ExecResult → Bool
  | .success _ => false
  | .failure _ _ => true

/-- JavaScript `String.prototype.startsWith`, on the character data. -/
def jsStartsWith (s p : String) : Bool :=
  p.data.isPrefixOf s.data

/-- The guard condition of `executeCommands`, textually identical in all
three variants (src/index.js lines 98-105, part_000 lines 85-92,
part_001 lines 103-110): a command is blocked when it starts with none of
the six allow-listed strings. -/
def isBlocked (command : String) : Bool :=
  !(jsStartsWith command "grep") && !(jsStartsWith command "ls") &&
  !(jsStartsWith command "cat") && !(jsStartsWith command "npm run test") &&
  !(jsStartsWith command "npm run lint") && !(jsStartsWith command "git")

/-- A command is allowed exactly when the blocking condition fails. -/
def isAllowed (command : String) : Bool :=
  !(isBlocked command)

/-- The `commandOutputs` object, modelled extensionally as a partial map
from command string to recorded output. -/
def JsObj : Type := String → Option String

/-- The empty object literal, source `const commandOutputs = \x7b\x7d`. -/
def emptyObj : JsObj := fun _ => none

/-- Property assignment `commandOutputs[command] = output`: a later write to
the same key overwrites the earlier one. -/
def objSet (m : JsObj) (k v : String) : JsObj :=
  fun c => if c == k then some v else m c

/-- Boolean list membership used in the statements below. -/
def listHas (l : List String) (c : String) : Bool :=
  l.any (fun d => d == c)

/-- Loop of `executeCommands` in src/index.js lines 94-118 (the code in
part_001 lines 99-118 is identical): blocked commands are skipped with a
warning; each permitted command is executed with `execSync`, whose thrown
error is NOT caught and therefore propagates, aborting the whole call.
The first component records the commands actually handed to `execSync`, in
order, up to the point of an abort. -/
def executeCommandsIdxGo (exec : String → ExecResult) :
    List String → List String → JsObj → List String × Except JsError JsObj
  | [], executed, commandOutputs => (executed, .ok commandOutputs)
  | command :: rest, executed, commandOutputs =>
    if isBlocked command then
      executeCommandsIdxGo exec rest executed commandOutputs
    else
      match exec command with
      | .success output =>
        executeCommandsIdxGo exec rest (executed ++ [command]) (objSet commandOutputs command output)
      | .failure _ errString =>
        (executed ++ [command], .error (JsError.execError errString))

/-- The `executeCommands` of src/index.js (and part_001), starting from a
fresh empty `commandOutputs` object. -/
def executeCommandsIdx (exec : String → ExecResult) (commands : List String) :
    List String × Except JsError JsObj :=
  executeCommandsIdxGo exec commands [] emptyObj

/-- Value recorded for a command in part_000: stdout on success; on a thrown
error, `error.stderr.toString()` when `error.stderr` is truthy (a non-empty
string under utf-8 encoding), otherwise `error.toString()`
(part_000 lines 101-110). -/
def recordedOutput : ExecResult → String
  | .success output => output
  | .failure (some stderr) errString => if stderr == "" then errString else stderr
  | .failure none errString => errString

/-- Loop of `executeCommands` in part_000 lines 81-113: same guard, but the
`execSync` call is wrapped in try/catch, so a failing command has its
stderr (or error string) recorded and processing continues. -/
def executeCommandsP000Go (exec : String → ExecResult) :
    List String → List String → JsObj → List String × JsObj
  | [], executed, commandOutputs => (executed, commandOutputs)
  | command :: rest, executed, commandOutputs =>
    if isBlocked command then
      executeCommandsP000Go exec rest executed commandOutputs
    else
      executeCommandsP000Go exec rest (executed ++ [command])
        (objSet commandOutputs command (recordedOutput (exec command)))

/-- The `executeCommands` of part_000. -/
def executeCommandsP000 (exec : String → ExecResult) (commands : List String) :
    List String × JsObj :=
  executeCommandsP000Go exec commands [] emptyObj

/-- Whether the no-catch variant result map, when it exists, has an entry
for `c`. -/
def idxResultHasKey (res : List String × Except JsError JsObj) (c : String) : Bool :=
  match res.2 with
  | .ok m => (m c).isSome
  | .error _ => false

/-- Whether the no-catch variant aborted with a propagated exception. -/
def isErrorExcept (res : Except JsError JsObj) : Bool :=
  match res with
  | .ok _ => false
  | .error _ => true

/-- Observable actions of `applyPatch`: the write of the patch text to the
log path and the single `git apply --reject --whitespace=fix` invocation. -/
inductive ApplyEv where
  | writePatchFile (path : String) (patch : String)
  | gitApplyInvocation (path : String)
  | warnApplyFailed
  deriving DecidableEq

/-- The per-iteration patch log path
`path.join(directory, ".gpt-git", branch, toString iteration, "patch")`. -/
def patchFilePath (directory branch : String) (iteration : Nat) : String :=
  directory ++ "/.gpt-git/" ++ branch ++ "/" ++ toString iteration ++ "/patch"

/-- Predicate selecting the `git apply` invocation events of a trace. -/
def isGitApplyInvocation : ApplyEv → Bool
  | .gitApplyInvocation _ => true
  | _ => false

/-- The `applyPatch` of src/index.js lines 120-134: write the patch file,
then run `git apply`; a thrown `execSync` error is not caught and
propagates, aborting the run. `gitApply` is the subprocess oracle, applied
to the patch file path. -/
def applyPatchIdx (gitApply : String → Except JsError Unit)
    (directory branch : String) (iteration : Nat) (patch : String) :
    List ApplyEv × Except JsError Unit :=
  let p := patchFilePath directory branch iteration
  match gitApply p with
  | .ok _ => ([.writePatchFile p patch, .gitApplyInvocation p], .ok ())
  | .error e => ([.writePatchFile p patch, .gitApplyInvocation p], .error e)

/-- The `applyPatch` of part_000 lines 115-133: identical, except the
`git apply` call sits in try/catch, so a failure is logged as a warning and
the function returns normally. -/
def applyPatchP000 (gitApply : String → Except JsError Unit)
    (directory branch : String) (iteration : Nat) (patch : String) :
    List ApplyEv × Except JsError Unit :=
  let p := patchFilePath directory branch iteration
  match gitApply p with
  | .ok _ => ([.writePatchFile p patch, .gitApplyInvocation p], .ok ())
  | .error _ => ([.writePatchFile p patch, .gitApplyInvocation p, .warnApplyFailed], .ok ())

/-- Observable actions of the `main` functions. -/
inductive MainEv where
  | iterateCall (i : Nat)
  | logIteration (i : Nat)
  | applyPatchCall (i : Nat)
  | readWorkingFile (i : Nat)
  | setGameplan (i : Nat)
  | getCommitMessageCall
  | gitAdd
  | gitCommit
  | warnLogged
  deriving DecidableEq

/-- Predicate selecting loop-body entries (one per executed iteration). -/
def isIterateCall : MainEv → Bool
  | .iterateCall _ => true
  | _ => false

/-- Predicate selecting `git add .` invocations. -/
def isGitAddEv : MainEv → Bool
  | .gitAdd => true
  | _ => false

/-- Predicate selecting `git commit` invocations. -/
def isGitCommitEv : MainEv → Bool
  | .gitCommit => true
  | _ => false

/-- Events a loop body may append after its leading iterate and log
entries. -/
def loopExtOk : MainEv → Bool
  | .applyPatchCall _ => true
  | .readWorkingFile _ => true
  | .setGameplan _ => true
  | _ => false

/-- JavaScript truthiness of a string value. -/
def strTruthy (s : String) : Bool := !(s == "")

/-- JavaScript truthiness of a possibly-undefined string value. -/
def optStrTruthy : Option String → Bool
  | none => false
  | some s => strTruthy s

/-- The `nextIteration` object of the reply parsed by `iterate` in
src/index.js: each field may be absent (`undefined`). -/
structure NextIterationIdx where
  gameplan : Option String
  commands : Option (List String)
  workingFile : Option String

/-- The reply destructured in the src/index.js loop body:
`\x7b patch, patchDescription, nextIteration, complete \x7d`. -/
structure ReplyIdx where
  patch : String
  patchDescription : String
  nextIteration : Option NextIterationIdx
  complete : Bool

/-- Truthiness of `nextIteration?.commands`: an array value is truthy even
when empty. -/
def commandsTruthy : Option NextIterationIdx → Bool
  | none => false
  | some ni => ni.commands.isSome

/-- Truthiness of `nextIteration?.workingFile`. -/
def workingFileTruthy : Option NextIterationIdx → Bool
  | none => false
  | some ni => optStrTruthy ni.workingFile

/-- Truthiness of `nextIteration?.gameplan`. -/
def gameplanTruthy : Option NextIterationIdx → Bool
  | none => false
  | some ni => optStrTruthy ni.gameplan

/-- Node `path.join` restricted to the two-argument shape used in the loop;
joining with the empty string returns the first segment. -/
def pathJoin (a b : String) : String :=
  if b == "" then a else a ++ "/" ++ b

/-- The iteration ceiling, `const MAX_ITERATIONS = 20` in all variants. -/
def MAX_ITERATIONS : Nat := 20

/-- How the `while (iteration < MAX_ITERATIONS)` loop ends: by the
`complete` break, by the loop condition turning false, or by a thrown
error. -/
inductive LoopExit where
  | completedFlag (iteration : Nat)
  | ceiling (iteration : Nat)
  | thrown (e : JsError)
  deriving DecidableEq

/-- Whether the loop ended because the condition reached the ceiling. -/
def isCeilingExit : LoopExit → Bool
  | .ceiling _ => true
  | _ => false

/-- The `TypeError` thrown by `iteration++` because `iteration` is declared
with `const` (src/index.js line 30 and 70, part_000 lines 29 and 57). -/
def constAssignError : JsError :=
  .typeError "Assignment to constant variable"

/-- Tail of the src/index.js loop body, lines 66-70: optionally replace the
gameplan, then execute `iteration++`, which throws because `iteration` is a
`const` binding. -/
def gameplanStepIdx (r : ReplyIdx) (tr : List MainEv) : List MainEv × LoopExit :=
  if gameplanTruthy r.nextIteration then
    (tr ++ [MainEv.setGameplan 0], LoopExit.thrown constAssignError)
  else
    (tr, LoopExit.thrown constAssignError)

/-- Middle of the src/index.js loop body, lines 52-64: break on `complete`;
otherwise the `nextIteration?.commands` branch evaluates the undeclared
identifier `commands` (line 58) and throws a `ReferenceError`; otherwise the
`workingFile` branch reads `path.join(directory, workingFile)` where
`workingFile` is still the initial empty string. -/
def afterPatchIdx (r : ReplyIdx) (readFile : String → Except JsError String)
    (directory : String) (tr : List MainEv) : List MainEv × LoopExit :=
  if r.complete then
    (tr, LoopExit.completedFlag 0)
  else if commandsTruthy r.nextIteration then
    (tr, LoopExit.thrown (JsError.referenceError "commands is not defined"))
  else if workingFileTruthy r.nextIteration then
    match readFile (pathJoin directory "") with
    | .error e => (tr ++ [MainEv.readWorkingFile 0], LoopExit.thrown e)
    | .ok _ => gameplanStepIdx r (tr ++ [MainEv.readWorkingFile 0])
  else
    gameplanStepIdx r tr

/-- One pass of the src/index.js loop body, lines 31-70: call `iterate`, log
the response, apply a truthy patch (the no-catch `applyPatch`, whose failure
propagates), then continue with the conditional steps. -/
def mainLoopIdxBody (r : ReplyIdx) (gitApply : String → Except JsError Unit)
    (readFile : String → Except JsError String) (directory : String) :
    List MainEv × LoopExit :=
  let tr0 := [MainEv.iterateCall 0, MainEv.logIteration 0]
  if strTruthy r.patch then
    match gitApply r.patch with
    | .error e => (tr0 ++ [MainEv.applyPatchCall 0], LoopExit.thrown e)
    | .ok _ => afterPatchIdx r readFile directory (tr0 ++ [MainEv.applyPatchCall 0])
  else
    afterPatchIdx r readFile directory tr0

/-- The src/index.js loop, lines 30-71. `iteration` is a `const` bound to 0,
so the condition always compares 0 with `MAX_ITERATIONS`, the body runs for
iteration 0, and `iteration++` throws before any second pass; `replies`
gives the parsed reply each `iterate` call would return. -/
def mainLoopIdx (replies : Nat → ReplyIdx) (gitApply : String → Except JsError Unit)
    (readFile : String → Except JsError String) (directory : String) :
    List MainEv × LoopExit :=
  if 0 < MAX_ITERATIONS then
    mainLoopIdxBody (replies 0) gitApply readFile directory
  else
    ([], LoopExit.ceiling 0)

/-- The `TypeError` thrown by `await getCommitMessage()` in src/index.js
line 73: the function is declared with the destructuring parameter
`\x7b topLevelGoal \x7d` but called with no argument, so destructuring
`undefined` throws before its body runs (`getChangeLog()` on line 74 has
the same defect). -/
def getCommitMessageNoArgError : JsError :=
  .typeError "Cannot destructure property topLevelGoal of undefined"

/-- The src/index.js `main` from the loop onward, lines 30-92: after the
loop, the finalizer immediately throws in `getCommitMessage()`; the commit
try/catch block (lines 80-91) is therefore never reached. -/
def mainIdx (replies : Nat → ReplyIdx) (gitApply : String → Except JsError Unit)
    (readFile : String → Except JsError String) (directory : String) :
    List MainEv × Except JsError Unit :=
  match mainLoopIdx replies gitApply readFile directory with
  | (tr, LoopExit.thrown e) => (tr, .error e)
  | (tr, LoopExit.completedFlag _) =>
    (tr ++ [MainEv.getCommitMessageCall], .error getCommitMessageNoArgError)
  | (tr, LoopExit.ceiling _) =>
    (tr ++ [MainEv.getCommitMessageCall], .error getCommitMessageNoArgError)

/-- Whether `main` resolved normally. -/
def isOkE : Except JsError Unit → Bool
  | .ok _ => true
  | .error _ => false

/-- The process-level continuation
`main().then(() => console.log("Success!")).catch((error) => console.error("Error:", error))`
of src/index.js lines 376-378. -/
def processMessage : Except JsError Unit → String
  | .ok _ => "Success!"
  | .error _ => "Error:"

/-- The commit try/catch block of src/index.js lines 80-91 in isolation:
`git add .` then `git commit -m ...`; any thrown error is caught and logged,
and the block completes normally. -/
def commitStep (gitAddRes : Except JsError Unit) (gitCommitRes : Except JsError Unit) :
    List MainEv × Except JsError Unit :=
  match gitAddRes with
  | .error _ => ([MainEv.gitAdd, MainEv.warnLogged], .ok ())
  | .ok _ =>
    match gitCommitRes with
    | .error _ => ([MainEv.gitAdd, MainEv.gitCommit, MainEv.warnLogged], .ok ())
    | .ok _ => ([MainEv.gitAdd, MainEv.gitCommit], .ok ())

/-- The reply destructured in the part_000 loop body, lines 32-35:
`\x7b patch, nextGameplan, commandOutputs, complete \x7d` (the
`commandOutputs` component plays no role in the loop control flow). -/
structure ReplyP000 where
  patch : Option String
  nextGameplan : Option String
  complete : Bool

/-- One pass of the part_000 loop body, lines 31-57: log, apply a truthy
patch through the catching `applyPatch` (which never throws), break on
`complete`, optionally replace the gameplan, then `iteration++` throws on
the `const` binding. -/
def mainLoopP000Body (r : ReplyP000) : List MainEv × LoopExit :=
  let tr := if optStrTruthy r.patch then
      [MainEv.iterateCall 0, MainEv.logIteration 0, MainEv.applyPatchCall 0]
    else
      [MainEv.iterateCall 0, MainEv.logIteration 0]
  if r.complete then
    (tr, LoopExit.completedFlag 0)
  else if optStrTruthy r.nextGameplan then
    (tr ++ [MainEv.setGameplan 0], LoopExit.thrown constAssignError)
  else
    (tr, LoopExit.thrown constAssignError)

/-- The part_000 loop, lines 29-58, with the same `const iteration = 0`. -/
def mainLoopP000 (replies : Nat → ReplyP000) : List MainEv × LoopExit :=
  if 0 < MAX_ITERATIONS then
    mainLoopP000Body (replies 0)
  else
    ([], LoopExit.ceiling 0)

/-- The part_001 loop body, lines 33-48: the destructuring
`const \x7b patch, patchDescription, gameplan, commands, workingFile, complete \x7d = await iterate(\x7b topLevelGoal, gameplan, ... \x7d)`
reads `gameplan` inside the initializer of the very `const` declaring it
(temporal dead zone), so the body throws a `ReferenceError` before
`iterate` is called; no patch is ever applied and no break is reached. -/
def mainLoopP001 : List MainEv × LoopExit :=
  ([], LoopExit.thrown (JsError.referenceError "Cannot access gameplan before initialization"))

/-- The shape of the `octokit.rest.pulls.create` response used by
`createPullRequest` in part_001: an HTTP status and `data.html_url`. -/
structure PullsCreateResponse where
  status : Nat
  html_url : String
  deriving DecidableEq

/-- The `createPullRequest` of part_001 lines 417-441: a status of exactly
201 yields the new pull request URL; any other status is logged and yields
`null`; a thrown error is caught, logged, and also yields `null`. -/
def createPullRequest (res : Except JsError PullsCreateResponse) : Option String :=
  match res with
  | .ok response => if response.status == 201 then some response.html_url else none
  | .error _ => none

/-- JSON values, as produced by a successful `JSON.parse`. -/
inductive Json where
  | null
  | bool (b : Bool)
  | num (n : Int)
  | str (s : String)
  | arr (elems : List Json)
  | obj (fields : List (String × Json))

/-- JavaScript truthiness of a JSON value: objects and arrays are truthy,
`null`, `false`, `0` and the empty string are falsy. -/
def jsTruthy : Json → Bool
  | .null => false
  | .bool b => b
  | .num n => !(n == 0)
  | .str s => !(s == "")
  | .arr _ => true
  | .obj _ => true

/-- JavaScript truthiness with `undefined` (`none`) being falsy. -/
def jsTruthyOpt : Option Json → Bool
  | none => false
  | some v => jsTruthy v

/-- Object property lookup; with duplicate keys the later entry wins, as in
a parsed JSON object literal. -/
def lookupField (fields : List (String × Json)) (key : String) : Option Json :=
  fields.foldl (fun acc f => if f.1 == key then some f.2 else acc) none

/-- Property access `v[key]` on a parsed JSON value: only objects carry
properties here; on any other value the access yields `undefined`. -/
def getProperty : Json → String → Option Json
  | .obj fields, key => lookupField fields key
  | _, _ => none

/-- Whitespace recognised by the modelled `String.prototype.trim`
(the ASCII whitespace characters). -/
def isJsWhitespace (c : Char) : Bool :=
  c == ' ' || c == '\t' || c == '\n' || c == '\r'

/-- JavaScript `nextGameplan.trim()`. -/
def jsTrim (s : String) : String :=
  String.mk (((s.data.dropWhile isJsWhitespace).reverse.dropWhile isJsWhitespace).reverse)

/-- The completion computation at the end of `iterate` in part_000 lines
394-398: `complete` starts as `false`; inside try/catch the trimmed reply
is parsed and `\x7b topLevelComplete \x7d` destructured from the result.
A parse failure is caught silently (`complete` keeps `false`); a parsed
`null` makes the destructuring throw, also caught (the same would happen
for an undefined reply text, whose `trim()` call throws inside the try);
any other parsed value leaves `complete` bound to its `topLevelComplete`
property, which is `undefined` for non-objects.  `jsonParse` models the
JavaScript `JSON.parse` builtin, returning `none` when it would throw. -/
def completeValueOf (jsonParse : String → Option Json) (nextGameplan : String) : Option Json :=
  match jsonParse (jsTrim nextGameplan) with
  | none => some (Json.bool false)
  | some Json.null => some (Json.bool false)
  | some v => getProperty v "topLevelComplete"

/-- Setting a key makes exactly that key additionally present. -/
theorem objSet_isSome (m : JsObj) (k v c : String) :
    ((objSet m k v) c).isSome = (c == k || (m c).isSome) := by
  unfold objSet
  by_cases h : (c == k) = true
  · simp [h]
  · rw [Bool.not_eq_true] at h
    simp [h]

/-- With an always-succeeding subprocess oracle, the no-catch
`executeCommands` loop executes exactly the allowed commands in order and
returns the map obtained by folding their outputs into the accumulator. -/
theorem idxGo_success (f : String → String) :
    ∀ (cmds execd : List String) (m : JsObj),
      executeCommandsIdxGo (fun d => ExecResult.success (f d)) cmds execd m
        = (execd ++ cmds.filter (fun c => isAllowed c),
           Except.ok (cmds.foldl (fun mm c => if isAllowed c then objSet mm c (f c) else mm) m)) := by
  intro cmds
  induction cmds with
  | nil => intro execd m; simp [executeCommandsIdxGo]
  | cons a rest ih =>
    intro execd m
    by_cases hB : isBlocked a = true
    · have hA : isAllowed a = false := by simp [isAllowed, hB]
      simp [executeCommandsIdxGo, hB, hA, ih, List.filter_cons]
    · have hB' : isBlocked a = false := by rwa [Bool.not_eq_true] at hB
      have hA : isAllowed a = true := by simp [isAllowed, hB']
      simp [executeCommandsIdxGo, hB', hA, ih, List.filter_cons]

/-- Key presence after the fold of successful outputs: a key is present in
the result exactly when it was present before or is an allowed input
command. -/
theorem fold_isSome (f : String → String) :
    ∀ (cmds : List String) (m : JsObj) (c : String),
      ((cmds.foldl (fun mm d => if isAllowed d then objSet mm d (f d) else mm) m) c).isSome
        = ((m c).isSome || (listHas cmds c && isAllowed c)) := by
  intro cmds
  induction cmds with
  | nil => intro m c; simp [listHas]
  | cons a rest ih =>
    intro m c
    rw [List.foldl_cons]
    by_cases hA : isAllowed a = true
    · by_cases hca : c = a
      · subst hca
        simp [hA, ih, objSet_isSome, listHas, List.any_cons]
      · have h1 : (c == a) = false := beq_eq_false_iff_ne.mpr hca
        have h2 : (a == c) = false := beq_eq_false_iff_ne.mpr (Ne.symm hca)
        simp [hA, ih, objSet_isSome, listHas, List.any_cons, h1, h2]
    · have hA' : isAllowed a = false := by rwa [Bool.not_eq_true] at hA
      by_cases hca : c = a
      · subst hca
        simp [hA', ih, listHas, List.any_cons]
      · have h2 : (a == c) = false := beq_eq_false_iff_ne.mpr (Ne.symm hca)
        simp [hA', ih, listHas, List.any_cons, h2]

/-- Freshness of the no-catch `executeCommands` loop: a key present in a
successful result was either an input command or already present in the
accumulator. -/
theorem idxGo_fresh :
    ∀ (exec : String → ExecResult) (cmds execd : List String) (m : JsObj) (c : String),
      idxResultHasKey (executeCommandsIdxGo exec cmds execd m) c = true →
      listHas cmds c = true ∨ (m c).isSome = true := by
  intro exec cmds
  induction cmds with
  | nil =>
    intro execd m c h
    right
    simpa [executeCommandsIdxGo, idxResultHasKey] using h
  | cons a rest ih =>
    intro execd m c h
    by_cases hB : isBlocked a = true
    · rcases ih execd m c (by simpa [executeCommandsIdxGo, hB] using h) with h1 | h1
      · left; simp [listHas, List.any_cons]
        right
        simpa [listHas] using h1
      · right; exact h1
    · have hB' : isBlocked a = false := by rwa [Bool.not_eq_true] at hB
      cases hEa : exec a with
      | success out =>
        have h' := ih (execd ++ [a]) (objSet m a out) c
          (by simpa [executeCommandsIdxGo, hB', hEa] using h)
        rcases h' with h1 | h1
        · left
          simp [listHas, List.any_cons]
          right
          simpa [listHas] using h1
        · rw [objSet_isSome] at h1
          rcases (Bool.or_eq_true _ _).mp h1 with h2 | h2
          · left
            have hca : c = a := eq_of_beq h2
            subst hca
            simp [listHas, List.any_cons]
          · right; exact h2
      | failure st msg =>
        exfalso
        simp [executeCommandsIdxGo, hB', hEa, idxResultHasKey] at h

/-- In the no-catch variant, a failing allowed command anywhere in the list
makes the whole call abort with a propagated exception. -/
theorem idxGo_aborts :
    ∀ (exec : String → ExecResult) (cmds execd : List String) (m : JsObj) (c : String),
      listHas cmds c = true → isAllowed c = true → isFailure (exec c) = true →
      isErrorExcept (executeCommandsIdxGo exec cmds execd m).2 = true := by
  intro exec cmds
  induction cmds with
  | nil => intro _ _ c h _ _; simp [listHas] at h
  | cons a rest ih =>
    intro execd m c hHas hA hF
    simp only [listHas, List.any_cons] at hHas
    by_cases hB : isBlocked a = true
    · have hrest : listHas rest c = true := by
        rcases (Bool.or_eq_true _ _).mp hHas with h1 | h1
        · exfalso
          have hac : a = c := eq_of_beq h1
          rw [hac] at hB
          rw [isAllowed, hB] at hA
          simp at hA
        · simpa [listHas] using h1
      simpa [executeCommandsIdxGo, hB] using ih execd m c hrest hA hF
    · have hB' : isBlocked a = false := by rwa [Bool.not_eq_true] at hB
      cases hEa : exec a with
      | failure st msg => simp [executeCommandsIdxGo, hB', hEa, isErrorExcept]
      | success out =>
        have hrest : listHas rest c = true := by
          rcases (Bool.or_eq_true _ _).mp hHas with h1 | h1
          · exfalso
            have hac : a = c := eq_of_beq h1
            rw [← hac] at hF
            rw [hEa] at hF
            simp [isFailure] at hF
          · simpa [listHas] using h1
        simpa [executeCommandsIdxGo, hB', hEa] using
          ih (execd ++ [a]) (objSet m a out) c hrest hA hF

/-- The catching `executeCommands` loop executes exactly the allowed
commands, in order, regardless of execution outcomes. -/
theorem p000Go_executed (exec : String → ExecResult) :
    ∀ (cmds execd : List String) (m : JsObj),
      (executeCommandsP000Go exec cmds execd m).1 = execd ++ cmds.filter (fun c => isAllowed c) := by
  intro cmds
  induction cmds with
  | nil => intro execd m; simp [executeCommandsP000Go]
  | cons a rest ih =>
    intro execd m
    by_cases hB : isBlocked a = true
    · have hA : isAllowed a = false := by simp [isAllowed, hB]
      simp [executeCommandsP000Go, hB, hA, ih, List.filter_cons]
    · have hB' : isBlocked a = false := by rwa [Bool.not_eq_true] at hB
      have hA : isAllowed a = true := by simp [isAllowed, hB']
      simp [executeCommandsP000Go, hB', hA, ih, List.filter_cons]

/-- A key not among the remaining commands keeps its accumulator value in
the catching `executeCommands` loop. -/
theorem p000Go_map_unwritten (exec : String → ExecResult) :
    ∀ (cmds execd : List String) (m : JsObj) (c : String),
      listHas cmds c = false → (executeCommandsP000Go exec cmds execd m).2 c = m c := by
  intro cmds
  induction cmds with
  | nil => intro execd m c _; rfl
  | cons a rest ih =>
    intro execd m c hc
    simp only [listHas, List.any_cons, Bool.or_eq_false_iff] at hc
    obtain ⟨h1, h2⟩ := hc
    have hca : (c == a) = false := by
      rcases Bool.eq_false_or_eq_true (c == a) with h | h
      · exfalso
        have hceq : c = a := eq_of_beq h
        subst hceq
        simp at h1
      · exact h
    by_cases hB : isBlocked a = true
    · simp only [executeCommandsP000Go, hB, if_true]
      exact ih execd m c (by simpa [listHas] using h2)
    · have hB' : isBlocked a = false := by rwa [Bool.not_eq_true] at hB
      simp only [executeCommandsP000Go, hB', Bool.false_eq_true, if_false]
      rw [ih (execd ++ [a]) (objSet m a (recordedOutput (exec a))) c (by simpa [listHas] using h2)]
      simp [objSet, hca]

/-- The gameplan step appends at most a `setGameplan` event and always
ends in the `const` assignment `TypeError`. -/
theorem gameplanStepIdx_shape (r : ReplyIdx) (tr : List MainEv) :
    ∃ ext, gameplanStepIdx r tr = (tr ++ ext, LoopExit.thrown constAssignError)
      ∧ ext.all loopExtOk = true := by
  by_cases h : gameplanTruthy r.nextIteration = true
  · exact ⟨[MainEv.setGameplan 0], by simp [gameplanStepIdx, h], by simp [loopExtOk]⟩
  · exact ⟨[], by simp [gameplanStepIdx, h], by simp⟩

/-- The post-patch part of the src/index.js loop body appends only
loop-internal events and never exits through the iteration ceiling. -/
theorem afterPatchIdx_shape (r : ReplyIdx) (rF : String → Except JsError String)
    (d : String) (tr : List MainEv) :
    ∃ ext, (afterPatchIdx r rF d tr).1 = tr ++ ext ∧ ext.all loopExtOk = true
      ∧ isCeilingExit (afterPatchIdx r rF d tr).2 = false := by
  by_cases hc : r.complete = true
  · exact ⟨[], by simp [afterPatchIdx, hc], by simp, by simp [afterPatchIdx, hc, isCeilingExit]⟩
  · by_cases hcmd : commandsTruthy r.nextIteration = true
    · exact ⟨[], by simp [afterPatchIdx, hc, hcmd], by simp,
        by simp [afterPatchIdx, hc, hcmd, isCeilingExit]⟩
    · by_cases hwf : workingFileTruthy r.nextIteration = true
      · cases hrf : rF (pathJoin d "") with
        | error e =>
          exact ⟨[MainEv.readWorkingFile 0],
            by simp [afterPatchIdx, hc, hcmd, hwf, hrf],
            by simp [loopExtOk],
            by simp [afterPatchIdx, hc, hcmd, hwf, hrf, isCeilingExit]⟩
        | ok s =>
          obtain ⟨ext, he, hall⟩ := gameplanStepIdx_shape r (tr ++ [MainEv.readWorkingFile 0])
          refine ⟨MainEv.readWorkingFile 0 :: ext, ?_, ?_, ?_⟩
          · simp [afterPatchIdx, hc, hcmd, hwf, hrf, he]
          · simp [List.all_cons, loopExtOk, hall]
          · simp [afterPatchIdx, hc, hcmd, hwf, hrf, he, isCeilingExit]
      · obtain ⟨ext, he, hall⟩ := gameplanStepIdx_shape r tr
        exact ⟨ext, by simp [afterPatchIdx, hc, hcmd, hwf, he], hall,
          by simp [afterPatchIdx, hc, hcmd, hwf, he, isCeilingExit]⟩

/-- One src/index.js loop body pass records exactly one iterate call,
appends only loop-internal events after it, and never exits through the
ceiling. -/
theorem mainLoopIdxBody_shape (r : ReplyIdx) (gA : String → Except JsError Unit)
    (rF : String → Except JsError String) (d : String) :
    ∃ ext, (mainLoopIdxBody r gA rF d).1 = MainEv.iterateCall 0 :: MainEv.logIteration 0 :: ext
      ∧ ext.all loopExtOk = true
      ∧ isCeilingExit (mainLoopIdxBody r gA rF d).2 = false := by
  by_cases hp : strTruthy r.patch = true
  · cases hga : gA r.patch with
    | error e =>
      exact ⟨[MainEv.applyPatchCall 0],
        by simp [mainLoopIdxBody, hp, hga],
        by simp [loopExtOk],
        by simp [mainLoopIdxBody, hp, hga, isCeilingExit]⟩
    | ok u =>
      obtain ⟨ext, h1, h2, h3⟩ := afterPatchIdx_shape r rF d
        [MainEv.iterateCall 0, MainEv.logIteration 0, MainEv.applyPatchCall 0]
      refine ⟨MainEv.applyPatchCall 0 :: ext, ?_, ?_, ?_⟩
      · simpa [mainLoopIdxBody, hp, hga] using h1
      · simp [List.all_cons, loopExtOk, h2]
      · simpa [mainLoopIdxBody, hp, hga] using h3
  · obtain ⟨ext, h1, h2, h3⟩ := afterPatchIdx_shape r rF d
      [MainEv.iterateCall 0, MainEv.logIteration 0]
    refine ⟨ext, ?_, h2, ?_⟩
    · simpa [mainLoopIdxBody, hp] using h1
    · simpa [mainLoopIdxBody, hp] using h3

/-- The src/index.js loop always takes the body branch because the
condition compares the constant 0 with the ceiling 20. -/
theorem mainLoopIdx_eq (replies : Nat → ReplyIdx) (gA : String → Except JsError Unit)
    (rF : String → Except JsError String) (d : String) :
    mainLoopIdx replies gA rF d = mainLoopIdxBody (replies 0) gA rF d := by
  unfold mainLoopIdx
  rw [if_pos (by decide : 0 < MAX_ITERATIONS)]

/-- Events allowed as loop-body extensions count no iterate calls, no
`git add` and no `git commit`. -/
theorem loopExtOk_counts {ext : List MainEv} (h : ext.all loopExtOk = true) :
    ext.countP isIterateCall = 0 ∧ ext.countP isGitAddEv = 0 ∧ ext.countP isGitCommitEv = 0 := by
  refine ⟨List.countP_eq_zero.mpr ?_, List.countP_eq_zero.mpr ?_, List.countP_eq_zero.mpr ?_⟩ <;>
    intro e he <;>
    have hx := List.all_eq_true.mp h e he <;>
    cases e <;>
    simp_all [loopExtOk, isIterateCall, isGitAddEv, isGitCommitEv]

/-- The src/index.js loop runs its body exactly once for any reply script
and any subprocess behaviour, performs no commit actions, and never exits
through the iteration ceiling. -/
theorem mainLoopIdx_count (replies : Nat → ReplyIdx) (gA : String → Except JsError Unit)
    (rF : String → Except JsError String) (d : String) :
    (mainLoopIdx replies gA rF d).1.countP isIterateCall = 1
    ∧ (mainLoopIdx replies gA rF d).1.countP isGitAddEv = 0
    ∧ (mainLoopIdx replies gA rF d).1.countP isGitCommitEv = 0
    ∧ isCeilingExit (mainLoopIdx replies gA rF d).2 = false := by
  rw [mainLoopIdx_eq]
  obtain ⟨ext, h1, h2, h3⟩ := mainLoopIdxBody_shape (replies 0) gA rF d
  obtain ⟨z1, z2, z3⟩ := loopExtOk_counts h2
  rw [h1]
  refine ⟨?_, ?_, ?_, h3⟩ <;>
    simp [List.countP_cons, z1, z2, z3, isIterateCall, isGitAddEv, isGitCommitEv]

/-- The part_000 loop likewise runs its body exactly once and never exits
through the ceiling. -/
theorem mainLoopP000_count (replies : Nat → ReplyP000) :
    (mainLoopP000 replies).1.countP isIterateCall = 1
    ∧ isCeilingExit (mainLoopP000 replies).2 = false := by
  have heq : mainLoopP000 replies = mainLoopP000Body (replies 0) := by
    unfold mainLoopP000
    rw [if_pos (by decide : 0 < MAX_ITERATIONS)]
  rw [heq]
  by_cases h1 : optStrTruthy (replies 0).patch = true <;>
    by_cases h2 : (replies 0).complete = true <;>
    by_cases h3 : optStrTruthy (replies 0).nextGameplan = true <;>
    simp [mainLoopP000Body, h1, h2, h3, List.countP_cons, List.countP_append,
      isIterateCall, isCeilingExit]

/-- The src/index.js `main` never resolves normally: every loop exit is
followed by the argument-less `getCommitMessage()` call, which throws
before the commit block; consequently no `git add` or `git commit` ever
appears in the trace. -/
theorem mainIdx_spec (replies : Nat → ReplyIdx) (gA : String → Except JsError Unit)
    (rF : String → Except JsError String) (d : String) :
    isOkE (mainIdx replies gA rF d).2 = false
    ∧ (mainIdx replies gA rF d).1.countP isGitAddEv = 0
    ∧ (mainIdx replies gA rF d).1.countP isGitCommitEv = 0 := by
  obtain ⟨c1, c2, c3, c4⟩ := mainLoopIdx_count replies gA rF d
  rcases hml : mainLoopIdx replies gA rF d with ⟨tr, ex⟩
  rw [hml] at c2 c3
  cases ex with
  | thrown e => simp [mainIdx, hml, isOkE, c2, c3]
  | completedFlag i =>
    simp [mainIdx, hml, isOkE, List.countP_append, List.countP_cons, c2, c3,
      isGitAddEv, isGitCommitEv]
  | ceiling i =>
    simp [mainIdx, hml, isOkE, List.countP_append, List.countP_cons, c2, c3,
      isGitAddEv, isGitCommitEv]

/-- Claim C1. The claim states that the main loop executes its body at most
20 (`MAX_ITERATIONS`) times and terminates either by the completion flag or
by the counter reaching the ceiling.  The bound holds, but vacuously: since
`iteration` is a `const` binding, the body runs exactly once for every
reply script and every subprocess behaviour (first two conjuncts, for
src/index.js and part_000), the ceiling exit is unreachable, and a reply
with `complete = false` ends the loop with the `TypeError` thrown by
`iteration++` rather than by flag or ceiling (last two conjuncts evaluate
both variants at such a reply). -/
theorem C1_loop_body_once_and_const_increment_throws :
    (∀ (replies : Nat → ReplyIdx) (gA : String → Except JsError Unit)
        (rF : String → Except JsError String) (d : String),
      (mainLoopIdx replies gA rF d).1.countP isIterateCall = 1
      ∧ isCeilingExit (mainLoopIdx replies gA rF d).2 = false)
    ∧ (∀ replies : Nat → ReplyP000,
      (mainLoopP000 replies).1.countP isIterateCall = 1
      ∧ isCeilingExit (mainLoopP000 replies).2 = false)
    ∧ mainLoopIdx (fun _ => ⟨"", "", none, false⟩) (fun _ => Except.ok ())
        (fun _ => Except.ok "") "."
      = ([MainEv.iterateCall 0, MainEv.logIteration 0], LoopExit.thrown constAssignError)
    ∧ mainLoopP000 (fun _ => ⟨none, some "updated plan", false⟩)
      = ([MainEv.iterateCall 0, MainEv.logIteration 0, MainEv.setGameplan 0],
         LoopExit.thrown constAssignError) := by
  refine ⟨fun replies gA rF d => ?_, fun replies => mainLoopP000_count replies, rfl, rfl⟩
  obtain ⟨c1, _, _, c4⟩ := mainLoopIdx_count replies gA rF d
  exact ⟨c1, c4⟩

/-- Claim C2. With every permitted command executing successfully, the
no-catch `executeCommands` runs exactly the commands whose text starts with
an allow-listed string, in order, and the returned map has an entry for a
command exactly when it occurs in the input list and is allowed; in
particular `git status` is allowed, `rm -rf /` is blocked, and the compound
`ls && rm -rf /` is allowed because only the leading text is checked. -/
theorem C2_guard_membership (f : String → String) (cmds : List String) :
    ((executeCommandsIdx (fun d => ExecResult.success (f d)) cmds).1
      = cmds.filter (fun c => isAllowed c))
    ∧ (∃ m, (executeCommandsIdx (fun d => ExecResult.success (f d)) cmds).2 = Except.ok m
        ∧ ∀ c, (m c).isSome = (listHas cmds c && isAllowed c))
    ∧ isAllowed "git status" = true
    ∧ isAllowed "rm -rf /" = false
    ∧ isAllowed "ls && rm -rf /" = true := by
  refine ⟨?_,
    ⟨cmds.foldl (fun mm c => if isAllowed c then objSet mm c (f c) else mm) emptyObj, ?_, ?_⟩,
    rfl, rfl, rfl⟩
  · simp only [executeCommandsIdx]
    rw [idxGo_success]
    simp
  · simp only [executeCommandsIdx]
    rw [idxGo_success]
  · intro c
    rw [fold_isSome]
    simp [emptyObj]

/-- Claim C3. At a reply with a non-empty patch and `complete = true`
(the end-to-end scenario of the spec), the src/index.js loop applies the
patch and exits after iteration 0 with no command execution and no gameplan
update, as claimed; but the finalizer then throws the destructuring
`TypeError` of the argument-less `getCommitMessage()` call, so the commit
step runs zero times, not exactly once; and in the part_001 variant the
loop body throws before any patch could be applied. -/
theorem C3_complete_reply_stops_loop_but_commit_unreachable :
    mainLoopIdx (fun _ => ⟨"diff text", "add health endpoint", none, true⟩)
        (fun _ => Except.ok ()) (fun _ => Except.ok "") "."
      = ([MainEv.iterateCall 0, MainEv.logIteration 0, MainEv.applyPatchCall 0],
         LoopExit.completedFlag 0)
    ∧ mainIdx (fun _ => ⟨"diff text", "add health endpoint", none, true⟩)
        (fun _ => Except.ok ()) (fun _ => Except.ok "") "."
      = ([MainEv.iterateCall 0, MainEv.logIteration 0, MainEv.applyPatchCall 0,
          MainEv.getCommitMessageCall], Except.error getCommitMessageNoArgError)
    ∧ (mainIdx (fun _ => ⟨"diff text", "add health endpoint", none, true⟩)
        (fun _ => Except.ok ()) (fun _ => Except.ok "") ".").1.countP isGitCommitEv = 0
    ∧ mainLoopP001
      = ([], LoopExit.thrown (JsError.referenceError "Cannot access gameplan before initialization")) :=
  ⟨rfl, rfl, rfl, rfl⟩

/-- Claim C4. When `git apply` fails on the written patch file, the
part_000 `applyPatch` catches the error and returns normally (first
conjunct, for every oracle outcome), while the src/index.js `applyPatch`
propagates exactly the oracle result, so a failure aborts the run (second
conjunct); in both variants the trace consists of the patch file write and
a single `git apply` invocation with nothing after it, so the success of
the apply is never verified and no compensating action is taken. -/
theorem C4_apply_patch_catching_and_propagating_variants
    (gitApply : String → Except JsError Unit) (directory branch : String)
    (iteration : Nat) (patch : String) :
    (applyPatchP000 gitApply directory branch iteration patch).2 = Except.ok ()
    ∧ (applyPatchIdx gitApply directory branch iteration patch).2
      = gitApply (patchFilePath directory branch iteration)
    ∧ (applyPatchIdx gitApply directory branch iteration patch).1
      = [ApplyEv.writePatchFile (patchFilePath directory branch iteration) patch,
         ApplyEv.gitApplyInvocation (patchFilePath directory branch iteration)]
    ∧ (applyPatchP000 gitApply directory branch iteration patch).1.countP isGitApplyInvocation = 1
    ∧ (applyPatchIdx gitApply directory branch iteration patch).1.countP isGitApplyInvocation = 1 := by
  cases h : gitApply (patchFilePath directory branch iteration) with
  | error e =>
    refine ⟨?_, ?_, ?_, ?_, ?_⟩ <;>
      simp [applyPatchIdx, applyPatchP000, h, List.countP_cons, isGitApplyInvocation]
  | ok u =>
    cases u
    refine ⟨?_, ?_, ?_, ?_, ?_⟩ <;>
      simp [applyPatchIdx, applyPatchP000, h, List.countP_cons, isGitApplyInvocation]

/-- Claim C5. In the catching part_000 variant a failing permitted command
records its stderr (or, when stderr is absent, the error string form) in
the map and processing continues with the remaining commands; a successful
permitted command records its stdout; in the no-catch variant
(src/index.js, part_001) any failing permitted command in the list makes
the whole `executeCommands` call abort with a propagated exception. -/
theorem C5_exec_error_recording_and_abort :
    (∀ (exec : String → ExecResult) (c : String) (cs : List String) (st msg : String),
      isAllowed c = true → exec c = ExecResult.failure (some st) msg → (st == "") = false →
      listHas cs c = false →
      (executeCommandsP000 exec (c :: cs)).2 c = some st
      ∧ (executeCommandsP000 exec (c :: cs)).1 = c :: cs.filter (fun d => isAllowed d))
    ∧ (∀ (exec : String → ExecResult) (c : String) (cs : List String) (msg : String),
      isAllowed c = true → exec c = ExecResult.failure none msg → listHas cs c = false →
      (executeCommandsP000 exec (c :: cs)).2 c = some msg)
    ∧ (∀ (exec : String → ExecResult) (c : String) (cs : List String) (out : String),
      isAllowed c = true → exec c = ExecResult.success out → listHas cs c = false →
      (executeCommandsP000 exec (c :: cs)).2 c = some out)
    ∧ (∀ (exec : String → ExecResult) (cmds : List String) (c : String),
      listHas cmds c = true → isAllowed c = true → isFailure (exec c) = true →
      isErrorExcept (executeCommandsIdx exec cmds).2 = true) := by
  have blockedFalse : ∀ c : String, isAllowed c = true → isBlocked c = false := by
    intro c hA
    rcases Bool.eq_false_or_eq_true (isBlocked c) with h | h
    · rw [isAllowed, h] at hA
      simp at hA
    · exact h
  refine ⟨?_, ?_, ?_, ?_⟩
  · intro exec c cs st msg hA hE hst hHas
    have hB := blockedFalse c hA
    constructor
    · have hstep : (executeCommandsP000 exec (c :: cs)).2
          = (executeCommandsP000Go exec cs [c] (objSet emptyObj c (recordedOutput (exec c)))).2 := by
        simp [executeCommandsP000, executeCommandsP000Go, hB]
      rw [hstep, p000Go_map_unwritten exec cs [c] _ c hHas]
      simp [objSet, hE, recordedOutput, hst]
    · have hstep : (executeCommandsP000 exec (c :: cs)).1
          = (executeCommandsP000Go exec cs [c] (objSet emptyObj c (recordedOutput (exec c)))).1 := by
        simp [executeCommandsP000, executeCommandsP000Go, hB]
      rw [hstep, p000Go_executed]
      simp
  · intro exec c cs msg hA hE hHas
    have hB := blockedFalse c hA
    have hstep : (executeCommandsP000 exec (c :: cs)).2
        = (executeCommandsP000Go exec cs [c] (objSet emptyObj c (recordedOutput (exec c)))).2 := by
      simp [executeCommandsP000, executeCommandsP000Go, hB]
    rw [hstep, p000Go_map_unwritten exec cs [c] _ c hHas]
    simp [objSet, hE, recordedOutput]
  · intro exec c cs out hA hE hHas
    have hB := blockedFalse c hA
    have hstep : (executeCommandsP000 exec (c :: cs)).2
        = (executeCommandsP000Go exec cs [c] (objSet emptyObj c (recordedOutput (exec c)))).2 := by
      simp [executeCommandsP000, executeCommandsP000Go, hB]
    rw [hstep, p000Go_map_unwritten exec cs [c] _ c hHas]
    simp [objSet, hE, recordedOutput]
  · intro exec cmds c h1 h2 h3
    exact idxGo_aborts exec cmds [] emptyObj c h1 h2 h3

/-- Claim C5 witness: concrete run of both conjuncts at a failing
`git status` with stderr text. -/
theorem C5_exec_error_recording_and_abort_witness :
    (executeCommandsP000 (fun _ => ExecResult.failure (some "boom") "emsg") ["git status"]).2
        "git status" = some "boom"
    ∧ isErrorExcept
        (executeCommandsIdx (fun _ => ExecResult.failure (some "boom") "emsg") ["git status"]).2
      = true :=
  ⟨(C5_exec_error_recording_and_abort.1 (fun _ => ExecResult.failure (some "boom") "emsg")
      "git status" [] "boom" "emsg" rfl rfl rfl rfl).1,
    C5_exec_error_recording_and_abort.2.2.2 (fun _ => ExecResult.failure (some "boom") "emsg")
      ["git status"] "git status" rfl rfl rfl⟩

/-- Claim C6, counterexample to the claim as stated: the claim asserts that
one variant additionally allow-lists `tail`, `head` and `find` and executes
commands beginning with them; but in the part_000 variant (whose prompt
text is the only place naming those commands) the guard blocks all three:
nothing is executed and the returned map is empty at those keys. -/
theorem C6_tail_head_find_blocked_everywhere :
    (executeCommandsP000 (fun _ => ExecResult.success "ok")
        ["tail -n 5 README.md", "head -n 5 README.md", "find . -name server.js"]).1 = []
    ∧ (executeCommandsP000 (fun _ => ExecResult.success "ok")
        ["tail -n 5 README.md", "head -n 5 README.md", "find . -name server.js"]).2
        "tail -n 5 README.md" = none
    ∧ (executeCommandsP000 (fun _ => ExecResult.success "ok")
        ["tail -n 5 README.md", "head -n 5 README.md", "find . -name server.js"]).2
        "head -n 5 README.md" = none
    ∧ (executeCommandsP000 (fun _ => ExecResult.success "ok")
        ["tail -n 5 README.md", "head -n 5 README.md", "find . -name server.js"]).2
        "find . -name server.js" = none :=
  ⟨rfl, rfl, rfl, rfl⟩

/-- Claim C6, amended: in every variant the allow-list consists exactly of
`grep`, `ls`, `cat`, `npm run test`, `npm run lint` and `git`; commands
beginning with `tail`, `head` or `find` are blocked in all variants (the
part_000 prompt text offers them to the model, but its guard still rejects
them), and in each variant the executed commands are exactly the allowed
ones. -/
theorem C6_allow_list_is_exactly_six :
    (∀ c, isAllowed c
      = (jsStartsWith c "grep" || jsStartsWith c "ls" || jsStartsWith c "cat"
          || jsStartsWith c "npm run test" || jsStartsWith c "npm run lint"
          || jsStartsWith c "git"))
    ∧ isAllowed "tail -n 5 README.md" = false
    ∧ isAllowed "head -n 5 README.md" = false
    ∧ isAllowed "find . -name server.js" = false
    ∧ (∀ (exec : String → ExecResult) (cmds : List String),
        (executeCommandsP000 exec cmds).1 = cmds.filter (fun c => isAllowed c))
    ∧ (∀ (f : String → String) (cmds : List String),
        (executeCommandsIdx (fun d => ExecResult.success (f d)) cmds).1
          = cmds.filter (fun c => isAllowed c)) := by
  refine ⟨?_, rfl, rfl, rfl, ?_, ?_⟩
  · intro c
    unfold isAllowed isBlocked
    cases jsStartsWith c "grep" <;> cases jsStartsWith c "ls" <;>
      cases jsStartsWith c "cat" <;> cases jsStartsWith c "npm run test" <;>
      cases jsStartsWith c "npm run lint" <;> cases jsStartsWith c "git" <;> rfl
  · intro exec cmds
    exact p000Go_executed exec cmds [] emptyObj
  · intro f cmds
    simp only [executeCommandsIdx]
    rw [idxGo_success]
    simp

/-- Claim C7. The first conjunct shows `executeCommands` itself honours the
claim: an entry can exist in the returned map only for a command of the
input list (the map starts from a fresh empty object).  But the loop call
site in src/index.js line 58 reads the undeclared identifier `commands`
instead of `nextIteration.commands`, so an iteration whose reply requests
commands throws a `ReferenceError` and the map is never rebuilt: the second
conjunct evaluates the loop at such a reply. -/
theorem C7_fresh_map_but_call_site_reference_error :
    (∀ (exec : String → ExecResult) (cmds : List String) (c : String),
      (idxResultHasKey (executeCommandsIdx exec cmds) c && !(listHas cmds c)) = false)
    ∧ mainLoopIdx (fun _ => ⟨"", "", some ⟨none, some ["ls"], none⟩, false⟩)
        (fun _ => Except.ok ()) (fun _ => Except.ok "") "."
      = ([MainEv.iterateCall 0, MainEv.logIteration 0],
         LoopExit.thrown (JsError.referenceError "commands is not defined")) := by
  refine ⟨?_, rfl⟩
  intro exec cmds c
  rcases Bool.eq_false_or_eq_true (idxResultHasKey (executeCommandsIdx exec cmds) c) with hk | hk
  · have hk' : idxResultHasKey (executeCommandsIdxGo exec cmds [] emptyObj) c = true := hk
    rcases idxGo_fresh exec cmds [] emptyObj c hk' with h | h
    · simp [hk, h]
    · simp [emptyObj] at h
  · simp [hk]

/-- Claim C8. The commit try/catch block in isolation swallows every
`git add` / `git commit` failure and completes normally (first conjunct),
matching the claimed catch-log-swallow behaviour; but the surrounding
`main` of src/index.js never reaches it: for every reply script and
subprocess behaviour `main` rejects (the finalizer throws before the
commit block), the trace contains no `git add` or `git commit`, and the
process-level handler prints the error message, never the success
message. -/
theorem C8_commit_block_swallows_but_is_unreachable :
    (∀ (a c : Except JsError Unit), (commitStep a c).2 = Except.ok ())
    ∧ (∀ (replies : Nat → ReplyIdx) (gA : String → Except JsError Unit)
        (rF : String → Except JsError String) (d : String),
      isOkE (mainIdx replies gA rF d).2 = false
      ∧ (mainIdx replies gA rF d).1.countP isGitAddEv = 0
      ∧ (mainIdx replies gA rF d).1.countP isGitCommitEv = 0)
    ∧ processMessage (mainIdx (fun _ => ⟨"", "", none, true⟩) (fun _ => Except.ok ())
        (fun _ => Except.ok "") ".").2 = "Error:" := by
  refine ⟨?_, fun replies gA rF d => mainIdx_spec replies gA rF d, rfl⟩
  intro a c
  cases a with
  | error e => rfl
  | ok u =>
    cases c with
    | error e2 => rfl
    | ok u2 => rfl

/-- Claim C9. `createPullRequest` returns the pull request URL exactly when
the API response is a success with HTTP status 201, and returns the null
result for every thrown error (and, by the biconditional, for every other
status). -/
theorem C9_create_pull_request_status_201 :
    (∀ (res : Except JsError PullsCreateResponse) (url : String),
      createPullRequest res = some url
        ↔ ∃ r, res = Except.ok r ∧ r.status = 201 ∧ r.html_url = url)
    ∧ (∀ e, createPullRequest (Except.error e) = none) := by
  constructor
  · intro res url
    constructor
    · intro h
      cases res with
      | error e => simp [createPullRequest] at h
      | ok r =>
        by_cases hs : (r.status == 201) = true
        · refine ⟨r, rfl, beq_iff_eq.mp hs, ?_⟩
          simpa [createPullRequest, hs] using h
        · rw [Bool.not_eq_true] at hs
          simp [createPullRequest, hs] at h
    · rintro ⟨r, rfl, h201, rfl⟩
      simp [createPullRequest, h201]
  · intro e
    rfl

/-- Claim C10. In the part_000 variant the completion flag is truthy
exactly when the trimmed next-gameplan reply parses as a JSON object whose
`topLevelComplete` property is truthy; a parse failure is swallowed and the
flag keeps the value `false` (second conjunct instantiates the parser that
always throws), so a free-text gameplan reply neither raises an error nor
terminates the loop early. -/
theorem C10_complete_flag_iff_top_level_complete :
    (∀ (p : String → Option Json) (s : String),
      jsTruthyOpt (completeValueOf p s) = true
        ↔ ∃ fields w, p (jsTrim s) = some (Json.obj fields)
            ∧ lookupField fields "topLevelComplete" = some w ∧ jsTruthy w = true)
    ∧ (∀ s, completeValueOf (fun _ => none) s = some (Json.bool false))
    ∧ jsTruthy (Json.bool false) = false := by
  refine ⟨?_, fun s => rfl, rfl⟩
  intro p s
  constructor
  · intro h
    cases hp : p (jsTrim s) with
    | none => simp [completeValueOf, hp, jsTruthyOpt, jsTruthy] at h
    | some v =>
      cases v with
      | null => simp [completeValueOf, hp, jsTruthyOpt, jsTruthy] at h
      | bool b => simp [completeValueOf, hp, getProperty, jsTruthyOpt] at h
      | num n => simp [completeValueOf, hp, getProperty, jsTruthyOpt] at h
      | str s2 => simp [completeValueOf, hp, getProperty, jsTruthyOpt] at h
      | arr xs => simp [completeValueOf, hp, getProperty, jsTruthyOpt] at h
      | obj fields =>
        have h2 : jsTruthyOpt (lookupField fields "topLevelComplete") = true := by
          simpa [completeValueOf, hp, getProperty] using h
        cases hl : lookupField fields "topLevelComplete" with
        | none =>
          rw [hl] at h2
          simp [jsTruthyOpt] at h2
        | some w =>
          rw [hl] at h2
          exact ⟨fields, w, rfl, hl, by simpa [jsTruthyOpt] using h2⟩
  · rintro ⟨fields, w, hp, hl, hw⟩
    simp [completeValueOf, hp, getProperty, hl, jsTruthyOpt, hw]

end GitGpt
